import Mathlib

/-!
Verification of the pb/v3 progress-bar pool and synchronization bridge.

The development shallowly embeds the Go code of the repository:
the synchronization bridge (`RegisterProgressableContext`, `hasTitle`,
`progressWorker` from `src/v3/interface.go`), the registration factory
(`PoolProgressFactory.RegisterContext`), and the two platform redraw
strategies (`print` from `src/v3/pool_x.go` and from the Windows build).
The `ProgressBar` data type itself (the repository's bar implementation)
is not among the provided sources, so its state and accessors are
modelled from the spec's ProgressState contract.
-/

namespace PB

/-- Modelled from the spec: the bar's template is either the default one or
the title-bearing one installed by `hasTitle`; the glyph/format language is
out of scope, so templates are abstract tags. -/
inductive BarTemplate where
  | default
  | titled
deriving Repr, DecidableEq

/-- Modelled from the spec: ProgressState — one operation's renderable
snapshot (total, current, optional title data, optional error cause,
finished flag, display width). The `ProgressBar` implementation is
repository code not under the provided sources. -/
structure Bar where
  total : Int
  current : Int
  err : Option String
  finished : Bool
  titleData : Option String
  template : BarTemplate
  width : Int
deriving Repr, DecidableEq

/-- Modelled from the spec: `SetTotal` stores a revised total. -/
def Bar.SetTotal (b : Bar) (v : Int) : Bar := { b with total := v }

/-- Modelled from the spec: `SetCurrent` stores the current progress value. -/
def Bar.SetCurrent (b : Bar) (v : Int) : Bar := { b with current := v }

/-- Modelled from the spec: `SetErr` records a failure cause; the worker sets
it at most once and it is never cleared. -/
def Bar.SetErr (b : Bar) (cause : String) : Bar := { b with err := some cause }

/-- Modelled from the spec: `Finish` marks the bar finished (monotonic
false to true); it does not touch total, current, error or title. -/
def Bar.Finish (b : Bar) : Bar := { b with finished := true }

/-- Modelled from the spec: `SetWidth` stores the rendering width. -/
def Bar.SetWidth (b : Bar) (w : Int) : Bar := { b with width := w }

/-- Modelled from the spec: `Current` accessor. -/
def Bar.Current (b : Bar) : Int := b.current

/-- Modelled from the spec: `Total` accessor. -/
def Bar.Total (b : Bar) : Int := b.total

/-- Modelled from the spec: `IsFinished` accessor. -/
def Bar.IsFinished (b : Bar) : Bool := b.finished

/-- Modelled from the spec: `Error` accessor. -/
def Bar.Error (b : Bar) : Option String := b.err

/-- Modelled from the spec: `New64 total` constructs a fresh bar whose total
is the argument and whose current value is zero, with no error, not
finished, no title data and the default template. -/
def New64 (total : Int) : Bar :=
  { total := total, current := 0, err := none, finished := false,
    titleData := none, template := BarTemplate.default, width := 0 }

/-- A progress source as seen at registration: its `Total()` and `Value()`
at that moment, and `titleCap = some t` when it implements the optional
title capability (`TitleProgressable`) with `Title() = t`, `none` when it
does not implement it. -/
structure Src where
  total : Int
  value : Int
  titleCap : Option String
deriving Repr, DecidableEq

/-- One event observed by the bridge worker's select loop
(`progressWorker`, src/v3/interface.go): the context firing with its
cancellation cause, a ticker tick carrying the source's Total and Value
read at that moment, or a receive from the source's completion channel
(`ok = false` means the channel is closed — the completion signal —
carrying the Total and Value read in the final synchronization pass;
`ok = true` models a plain value received on the channel). -/
inductive WorkerEvent where
  | ctxDone (cause : String)
  | tick (total value : Int)
  | finishedChanRecv (ok : Bool) (total value : Int)
deriving Repr, DecidableEq

/-- An event that makes the worker return: context cancellation, or a
closed completion channel. -/
def isTerminalEvent : WorkerEvent → Bool
  | WorkerEvent.ctxDone _ => true
  | WorkerEvent.finishedChanRecv ok _ _ => !ok
  | WorkerEvent.tick _ _ => false

/-- A cancellation event. -/
def isCancelEvent : WorkerEvent → Bool
  | WorkerEvent.ctxDone _ => true
  | _ => false

/-- Outcome of a worker run over a finite event trace: the bar's final
state, how many times the removal callback ran, and whether the worker
returned (terminated) within the trace. -/
structure WorkerOutcome where
  bar : Bar
  removals : Nat
  terminated : Bool
deriving Repr, DecidableEq

/-- Shallow embedding of `progressWorker` (src/v3/interface.go lines
95-120) as a function of the event trace its select loop observes.
On a tick it copies the source's Total and Value into the bar; on a
closed completion channel it performs one final synchronization pass and
returns; on context cancellation it records the cause via `SetErr` and
returns. The deferred calls run on every return, in LIFO order:
`bar.Finish()` first, then `removeFunc(bar)` (counted in `removals`).
Events after the worker has returned are ignored. -/
def progressWorker (bar : Bar) : List WorkerEvent → WorkerOutcome
  | [] => { bar := bar, removals := 0, terminated := false }
  | WorkerEvent.ctxDone cause :: _ =>
      { bar := (bar.SetErr cause).Finish, removals := 1, terminated := true }
  | WorkerEvent.tick t v :: rest =>
      progressWorker ((bar.SetTotal t).SetCurrent v) rest
  | WorkerEvent.finishedChanRecv true _ _ :: rest =>
      progressWorker bar rest
  | WorkerEvent.finishedChanRecv false t v :: _ =>
      { bar := ((bar.SetTotal t).SetCurrent v).Finish, removals := 1, terminated := true }

/-- Shallow embedding of `hasTitle` (src/v3/interface.go lines 78-94):
when the source implements the title capability and its title is
non-empty, write the title into the bar's data and install the
title-bearing template; otherwise leave the bar untouched. -/
def hasTitle : Option Src → Bar → Bar
  | none, bar => bar
  | some src, bar =>
      match src.titleCap with
      | none => bar
      | some t =>
          if t = "" then bar
          else { bar with titleData := some t, template := BarTemplate.titled }

/-- Shallow embedding of `RegisterProgressableContext`
(src/v3/interface.go lines 56-74). A nil context is replaced by the
background context (`ctxIsNil` kept for fidelity; it does not affect the
constructed bar). Nil source and nil removal callback fail synchronously,
before the bar is constructed and before the worker goroutine starts; on
success the bar is built by `New64 (pr.Total())` and configured by
`hasTitle`, and the worker runs in the background (modelled separately by
`progressWorker` over its event trace). -/
def RegisterProgressableContext (ctxIsNil : Bool) (pr : Option Src)
    (removeFuncPresent : Bool) : Except String Bar :=
  match pr with
  | none => Except.error "RegisterProgressable: pr is nil"
  | some src =>
      if removeFuncPresent = false then
        Except.error "RegisterProgressable: removeFunc is nil"
      else
        Except.ok (hasTitle (some src) (New64 src.total))

/-- The registration factory's observable state: the pool's ordered bar
list (Modelled from the spec: `Pool.Add` appends to the display order;
pool.go is repository code not under the provided sources) and the
WaitGroup counter of outstanding registrations. -/
structure PoolProgressFactory where
  poolBars : List Bar
  wg : Int
deriving Repr, DecidableEq

/-- Shallow embedding of `PoolProgressFactory.RegisterContext`
(src/v3/interface.go lines 155-177): nil source fails before the counter
is touched; otherwise the counter is incremented, a (non-nil) removal
callback is built, and registration proceeds; if bridge establishment
failed the counter would be decremented again and the error returned;
on success the bar is appended to the pool. Returns the new factory
state and the error, if any. -/
def RegisterContext (f : PoolProgressFactory) (ctxIsNil : Bool)
    (p : Option Src) : PoolProgressFactory × Option String :=
  match p with
  | none => (f, some "Register: progressable is nil")
  | some src =>
      let f1 : PoolProgressFactory := { f with wg := f.wg + 1 }
      match RegisterProgressableContext ctxIsNil (some src) true with
      | Except.error e => ({ f1 with wg := f1.wg - 1 }, some e)
      | Except.ok bar => ({ f1 with poolBars := f1.poolBars ++ [bar] }, none)

/-- The pool state the `print` routines read: the ordered bar list and the
line count of the previous frame (Modelled from the spec: the `Pool`
struct itself is repository code not under the provided sources; `print`
only reads these two fields plus the output sink). -/
structure Pool where
  bars : List Bar
  lastBarsCount : Nat
deriving Repr, DecidableEq

/-- Modelled from the spec: fixed fallback width used when the terminal
geometry query fails (the constant lives in pool.go, which is repository
code not under the provided sources; its exact value is irrelevant to the
claims). -/
def defaultBarWidth : Int := 100

/-- The padding step shared by both `print` strategies: when the rendered
line occupies fewer than `cols` printable columns (per the injected
`cellCount`), append the missing spaces. -/
def padToWidth (cellCount : String → Int) (cols : Int) (result : String) : String :=
  let r := cols - cellCount result
  if 0 < r then result ++ String.mk (List.replicate r.toNat ' ') else result

/-- What one call of a `print` strategy produces, from the core's point of
view: the bars drawn this frame, their padded lines in order, the
all-finished return value, and the stored frame line count. Cursor
control (the relative cursor-up escape on Unix, the absolute cursor
save/query/restore syscalls on Windows) is repositioning only and draws
no bar. -/
structure PrintResult where
  drawn : List Bar
  lines : List String
  isFinished : Bool
  lastBarsCount : Nat
deriving Repr, DecidableEq

/-- Shallow embedding of the Unix `Pool.print` (src/v3/pool_x.go lines
14-54). `rows`, `cols` and `sizeErr` model the `termutil.TerminalSize()`
result; on error only the width falls back to `defaultBarWidth`. When
`0 < rows` and the bar count exceeds `rows`, only the last `rows` bars of
the display order are drawn; each drawn bar has its width set to the
terminal width, is rendered by the injected `render`, and is padded to
the width; the all-finished return value is accumulated over the drawn
list; the frame line count stored is the drawn count. -/
def printUnix (render : Bar → String) (cellCount : String → Int)
    (rows cols : Int) (sizeErr : Bool) (p : Pool) : PrintResult :=
  let cols := if sizeErr then defaultBarWidth else cols
  let bars :=
    if 0 < rows ∧ rows < (p.bars.length : Int) then
      p.bars.drop (p.bars.length - rows.toNat)
    else p.bars
  { drawn := bars
    lines := bars.map (fun b =>
      "\r" ++ padToWidth cellCount cols (render (b.SetWidth cols)) ++ "\n")
    isFinished := bars.all (fun b => b.finished)
    lastBarsCount := bars.length }

/-- Shallow embedding of the Windows `Pool.print` (appended to
src/v3/interface_test.go, lines 492-542). `cols` and `widthErr` model the
`termutil.TerminalWidth()` result. Every bar of the display order is
drawn — there is no height elision and no `SetWidth` call — each rendered
line is padded to the width, the all-finished return value is accumulated
over all bars, and the frame line count stored is the full bar count. -/
def printWindows (render : Bar → String) (cellCount : String → Int)
    (cols : Int) (widthErr : Bool) (p : Pool) : PrintResult :=
  let cols := if widthErr then defaultBarWidth else cols
  { drawn := p.bars
    lines := p.bars.map (fun b =>
      "\r" ++ padToWidth cellCount cols (render b) ++ "\n")
    isFinished := p.bars.all (fun b => b.finished)
    lastBarsCount := p.bars.length }

/-- A width-insensitive render stub used only to instantiate theorems at
concrete inputs; the real template language is out of scope. -/
def renderConst : Bar → String := fun _ => "*"

/-- A concrete column-count function for instantiating theorems. -/
def cellCountLen : String → Int := fun s => (s.length : Int)

/-! ### Helper lemmas about the bar model and the worker -/

theorem Bar.setters_preserve_meta (b : Bar) (t v : Int) :
    ((b.SetTotal t).SetCurrent v).titleData = b.titleData ∧
    ((b.SetTotal t).SetCurrent v).template = b.template ∧
    ((b.SetTotal t).SetCurrent v).err = b.err := by
  simp [Bar.SetTotal, Bar.SetCurrent]

theorem progressWorker_nonterminal_cons (b : Bar) (e : WorkerEvent)
    (rest : List WorkerEvent) (he : isTerminalEvent e = false) :
    ∃ b1, progressWorker b (e :: rest) = progressWorker b1 rest ∧
      b1.titleData = b.titleData ∧ b1.template = b.template ∧ b1.err = b.err := by
  cases e with
  | ctxDone c => simp [isTerminalEvent] at he
  | tick t v =>
      exact ⟨(b.SetTotal t).SetCurrent v, rfl, by simp [Bar.SetTotal, Bar.SetCurrent]⟩
  | finishedChanRecv ok t v =>
      cases ok with
      | true => exact ⟨b, rfl, rfl, rfl, rfl⟩
      | false => simp [isTerminalEvent] at he

/-! ### C1 -/

/-- C1: when the completion signal fires (the completion channel closes)
after any run of non-terminal events, the worker performs one final
synchronization pass — the bar's Total and Current equal the source
values read at completion — then marks the bar finished and invokes the
removal callback, terminating; events after termination are ignored. -/
theorem progressWorker_completion_final_flush (b : Bar) (pre : List WorkerEvent)
    (t v : Int) (post : List WorkerEvent)
    (hpre : ∀ e ∈ pre, isTerminalEvent e = false) :
    (progressWorker b (pre ++ WorkerEvent.finishedChanRecv false t v :: post)).bar.Total = t ∧
    (progressWorker b (pre ++ WorkerEvent.finishedChanRecv false t v :: post)).bar.Current = v ∧
    (progressWorker b (pre ++ WorkerEvent.finishedChanRecv false t v :: post)).bar.IsFinished = true ∧
    (progressWorker b (pre ++ WorkerEvent.finishedChanRecv false t v :: post)).removals = 1 ∧
    (progressWorker b (pre ++ WorkerEvent.finishedChanRecv false t v :: post)).terminated = true := by
  induction pre generalizing b with
  | nil =>
      simp [progressWorker, Bar.Finish, Bar.SetCurrent, Bar.SetTotal,
        Bar.Total, Bar.Current, Bar.IsFinished]
  | cons e rest ih =>
      have he : isTerminalEvent e = false := hpre e (List.mem_cons_self e rest)
      obtain ⟨b1, hstep, -, -, -⟩ :=
        progressWorker_nonterminal_cons b e
          (rest ++ WorkerEvent.finishedChanRecv false t v :: post) he
      rw [List.cons_append, hstep]
      exact ih b1 (fun x hx => hpre x (List.mem_cons_of_mem e hx))

/-- C1 witness: Total 150, values 0, 40, 90, 150 over ticks, then the
completion signal with Value 150: the bound bar ends with Current 150 and
IsFinished true. -/
theorem progressWorker_completion_final_flush_witness :
    (progressWorker (New64 150)
        ([WorkerEvent.tick 150 0, WorkerEvent.tick 150 40,
          WorkerEvent.tick 150 90, WorkerEvent.tick 150 150] ++
         WorkerEvent.finishedChanRecv false 150 150 :: [])).bar.Current = 150 ∧
    (progressWorker (New64 150)
        ([WorkerEvent.tick 150 0, WorkerEvent.tick 150 40,
          WorkerEvent.tick 150 90, WorkerEvent.tick 150 150] ++
         WorkerEvent.finishedChanRecv false 150 150 :: [])).bar.IsFinished = true := by
  have h := progressWorker_completion_final_flush (New64 150)
    [WorkerEvent.tick 150 0, WorkerEvent.tick 150 40,
     WorkerEvent.tick 150 90, WorkerEvent.tick 150 150] 150 150 []
    (by decide)
  exact ⟨h.2.1, h.2.2.1⟩

/-! ### C2 -/

/-- C2 counterexample: an execution in which the cancellation path is
taken (the context fires on a fresh bar with total 150) ends with the bar
both marked finished and carrying the cancellation error — the deferred
`bar.Finish()` runs on the cancellation path too, so the two outcomes are
not mutually exclusive as claimed. -/
theorem progressWorker_cancel_also_finishes_cex :
    (progressWorker (New64 150) [WorkerEvent.ctxDone "context canceled"]).bar.IsFinished = true ∧
    (progressWorker (New64 150) [WorkerEvent.ctxDone "context canceled"]).bar.Error
      = some "context canceled" := by
  exact ⟨rfl, rfl⟩

/-- C2 amended: the two terminal triggers are mutually exclusive per
execution — the worker returns at the first terminal event — and the
error field alone distinguishes them: starting from a bar with no error,
a terminated run leaves the bar carrying an error exactly when that first
terminal event was the cancellation; but every terminated run, the
cancellation path included, leaves the bar marked finished, because the
deferred `Finish` runs on every exit path. -/
theorem progressWorker_terminal_paths (b : Bar) (evs : List WorkerEvent)
    (herr : b.err = none)
    (hterm : (progressWorker b evs).terminated = true) :
    (progressWorker b evs).bar.IsFinished = true ∧
    ((progressWorker b evs).bar.Error.isSome
      = (evs.find? isTerminalEvent).any isCancelEvent) := by
  induction evs generalizing b with
  | nil => simp [progressWorker] at hterm
  | cons e rest ih =>
      cases e with
      | ctxDone c =>
          simp [progressWorker, Bar.SetErr, Bar.Finish, Bar.IsFinished, Bar.Error,
            List.find?, isTerminalEvent, isCancelEvent]
      | tick t v =>
          have h := ih ((b.SetTotal t).SetCurrent v)
            (by simp [Bar.SetTotal, Bar.SetCurrent, herr])
            (by simpa [progressWorker] using hterm)
          simpa [progressWorker, List.find?, isTerminalEvent] using h
      | finishedChanRecv ok t v =>
          cases ok with
          | true =>
              have h := ih b herr (by simpa [progressWorker] using hterm)
              simpa [progressWorker, List.find?, isTerminalEvent] using h
          | false =>
              constructor
              · simp [progressWorker, Bar.SetTotal, Bar.SetCurrent, Bar.Finish,
                  Bar.IsFinished]
              · simp [progressWorker, Bar.SetTotal, Bar.SetCurrent, Bar.Finish,
                  Bar.Error, herr, List.find?, isTerminalEvent, isCancelEvent]

/-- C2 amended witness: on a concrete completion-terminated run the bar
ends finished with no error recorded. -/
theorem progressWorker_terminal_paths_witness :
    (progressWorker (New64 7)
        [WorkerEvent.tick 7 3, WorkerEvent.finishedChanRecv false 7 7]).bar.IsFinished = true ∧
    ((progressWorker (New64 7)
        [WorkerEvent.tick 7 3, WorkerEvent.finishedChanRecv false 7 7]).bar.Error.isSome
      = (([WorkerEvent.tick 7 3, WorkerEvent.finishedChanRecv false 7 7].find?
            isTerminalEvent).any isCancelEvent)) := by
  exact progressWorker_terminal_paths (New64 7)
    [WorkerEvent.tick 7 3, WorkerEvent.finishedChanRecv false 7 7] rfl rfl

/-! ### C6 -/

/-- C6: when the cancellation signal fires after any run of non-terminal
events, the worker records the cancellation cause into the bar's error
field, invokes the removal callback exactly once, performs no further
synchronization — the bar's Total and Current are exactly what they were
before the cancellation — and the whole outcome is independent of any
later source activity (the trace after the cancellation event). -/
theorem progressWorker_cancel_freezes (b : Bar) (pre : List WorkerEvent)
    (c : String) (post : List WorkerEvent)
    (hpre : ∀ e ∈ pre, isTerminalEvent e = false) :
    (progressWorker b (pre ++ WorkerEvent.ctxDone c :: post)).bar.Error = some c ∧
    (progressWorker b (pre ++ WorkerEvent.ctxDone c :: post)).removals = 1 ∧
    (progressWorker b (pre ++ WorkerEvent.ctxDone c :: post)).bar.Total
      = (progressWorker b pre).bar.Total ∧
    (progressWorker b (pre ++ WorkerEvent.ctxDone c :: post)).bar.Current
      = (progressWorker b pre).bar.Current ∧
    progressWorker b (pre ++ WorkerEvent.ctxDone c :: post)
      = progressWorker b (pre ++ [WorkerEvent.ctxDone c]) := by
  induction pre generalizing b with
  | nil =>
      simp [progressWorker, Bar.SetErr, Bar.Finish, Bar.Error, Bar.Total, Bar.Current]
  | cons e rest ih =>
      have he : isTerminalEvent e = false := hpre e (List.mem_cons_self e rest)
      have hrest : ∀ x ∈ rest, isTerminalEvent x = false :=
        fun x hx => hpre x (List.mem_cons_of_mem e hx)
      cases e with
      | ctxDone c0 => simp [isTerminalEvent] at he
      | tick t v =>
          have h := ih ((b.SetTotal t).SetCurrent v) hrest
          simpa [progressWorker] using h
      | finishedChanRecv ok t v =>
          cases ok with
          | true =>
              have h := ih b hrest
              simpa [progressWorker] using h
          | false => simp [isTerminalEvent] at he

/-- C6 witness: after one tick reporting 60 of 150 and then cancellation,
the bar carries the cancellation cause, the removal callback ran once,
and the frozen Current/Total ignore the later tick reporting 150. -/
theorem progressWorker_cancel_freezes_witness :
    (progressWorker (New64 150)
        ([WorkerEvent.tick 150 60] ++ WorkerEvent.ctxDone "context canceled"
          :: [WorkerEvent.tick 150 150])).bar.Error = some "context canceled" ∧
    (progressWorker (New64 150)
        ([WorkerEvent.tick 150 60] ++ WorkerEvent.ctxDone "context canceled"
          :: [WorkerEvent.tick 150 150])).removals = 1 ∧
    (progressWorker (New64 150)
        ([WorkerEvent.tick 150 60] ++ WorkerEvent.ctxDone "context canceled"
          :: [WorkerEvent.tick 150 150])).bar.Current
      = (progressWorker (New64 150) [WorkerEvent.tick 150 60]).bar.Current := by
  have h := progressWorker_cancel_freezes (New64 150) [WorkerEvent.tick 150 60]
    "context canceled" [WorkerEvent.tick 150 150] (by decide)
  exact ⟨h.1, h.2.1, h.2.2.2.1⟩

/-! ### C8 -/

theorem progressWorker_removals_count (b : Bar) (evs : List WorkerEvent) :
    (progressWorker b evs).removals
      = if evs.any isTerminalEvent = true then 1 else 0 := by
  induction evs generalizing b with
  | nil => simp [progressWorker]
  | cons e rest ih =>
      cases e with
      | ctxDone c => simp [progressWorker, isTerminalEvent]
      | tick t v => simp [progressWorker, isTerminalEvent, ih]
      | finishedChanRecv ok t v =>
          cases ok with
          | true => simp [progressWorker, isTerminalEvent, ih]
          | false => simp [progressWorker, isTerminalEvent]

/-- C8: over any event trace the removal callback runs exactly once when
the trace contains a terminal event (completion or cancellation) and not
at all otherwise — never more than once; in particular a trace in which
the completion signal fires twice still invokes the removal callback
exactly once (the worker, a total function of the trace, returns at the
first firing and ignores the second). -/
theorem progressWorker_removal_exactly_once (b : Bar) (evs : List WorkerEvent) :
    ((progressWorker b evs).removals
        = if evs.any isTerminalEvent = true then 1 else 0) ∧
    (progressWorker b evs).removals ≤ 1 ∧
    (∀ t1 v1 t2 v2,
      (progressWorker b (evs ++ [WorkerEvent.finishedChanRecv false t1 v1,
          WorkerEvent.finishedChanRecv false t2 v2])).removals = 1) := by
  refine ⟨progressWorker_removals_count b evs, ?_, ?_⟩
  · rw [progressWorker_removals_count]
    split <;> simp
  · intro t1 v1 t2 v2
    rw [progressWorker_removals_count]
    simp [List.any_append, isTerminalEvent]

/-! ### C9 -/

theorem progressWorker_preserves_title (b : Bar) (evs : List WorkerEvent) :
    (progressWorker b evs).bar.titleData = b.titleData ∧
    (progressWorker b evs).bar.template = b.template := by
  induction evs generalizing b with
  | nil => exact ⟨rfl, rfl⟩
  | cons e rest ih =>
      cases e with
      | ctxDone c =>
          simp [progressWorker, Bar.SetErr, Bar.Finish]
      | tick t v =>
          have h := ih ((b.SetTotal t).SetCurrent v)
          simpa [progressWorker, Bar.SetTotal, Bar.SetCurrent] using h
      | finishedChanRecv ok t v =>
          cases ok with
          | true => simpa [progressWorker] using ih b
          | false =>
              simp [progressWorker, Bar.SetTotal, Bar.SetCurrent, Bar.Finish]

/-- C9: the title capability is probed exactly once, at registration.
Registration succeeds and returns a bar in which, if the source offers
the title capability with a non-empty title, the title is written into
the bar's data and the title-bearing template installed; if the title is
empty or the capability absent, the bar's title data and template are
the untouched defaults. The worker never changes either field on any
tick or terminal event, so the probe's result is fixed for the bar's
lifetime. -/
theorem register_title_probe_once (ctxIsNil : Bool) (src : Src) :
    (∃ b, RegisterProgressableContext ctxIsNil (some src) true = Except.ok b ∧
      (∀ t, src.titleCap = some t → ¬t = "" →
        b.titleData = some t ∧ b.template = BarTemplate.titled) ∧
      (src.titleCap = none ∨ src.titleCap = some "" →
        b.titleData = none ∧ b.template = BarTemplate.default)) ∧
    (∀ b0 evs, (progressWorker b0 evs).bar.titleData = b0.titleData ∧
      (progressWorker b0 evs).bar.template = b0.template) := by
  constructor
  · refine ⟨hasTitle (some src) (New64 src.total), by simp [RegisterProgressableContext], ?_, ?_⟩
    · intro t ht hne
      simp [hasTitle, ht, hne, New64]
    · intro h
      rcases h with h | h <;> simp [hasTitle, h, New64]
  · exact progressWorker_preserves_title

/-- C9 witness: registering a source titled "Upload:" yields a bar with
that title datum and the titled template. -/
theorem register_title_probe_once_witness :
    ∃ b, RegisterProgressableContext false
        (some { total := 100, value := 0, titleCap := some "Upload:" }) true = Except.ok b ∧
      b.titleData = some "Upload:" ∧ b.template = BarTemplate.titled := by
  obtain ⟨⟨b, hb, h1, -⟩, -⟩ := register_title_probe_once false
    { total := 100, value := 0, titleCap := some "Upload:" }
  obtain ⟨ht, htm⟩ := h1 "Upload:" rfl (by decide)
  exact ⟨b, hb, ht, htm⟩

/-! ### C10 -/

/-- C10: a successful registration returns a bar whose Total already
equals the source's Total at the moment of registration, synchronously —
the bar is constructed by `New64 (pr.Total())` before the worker runs —
and whose Current starts at zero. -/
theorem register_bar_total_synchronous (ctxIsNil : Bool) (src : Src) :
    ∃ b, RegisterProgressableContext ctxIsNil (some src) true = Except.ok b ∧
      b.Total = src.total ∧ b.Current = 0 := by
  refine ⟨hasTitle (some src) (New64 src.total), by simp [RegisterProgressableContext], ?_⟩
  cases h : src.titleCap with
  | none => simp [hasTitle, h, New64, Bar.Total, Bar.Current]
  | some t =>
      by_cases hne : t = "" <;>
        simp [hasTitle, h, hne, New64, Bar.Total, Bar.Current]

/-! ### C7 -/

/-- C7: registration validation is synchronous and side-effect free — a
nil source or a nil removal callback makes `RegisterProgressableContext`
return an error before any bar is built or worker started; at the factory
level, registering a nil source returns an error with the factory state
(outstanding counter included) unchanged, while a successful registration
returns no error and increments the outstanding counter by exactly one. -/
theorem register_nil_validation :
    (∀ ctxIsNil rfp, RegisterProgressableContext ctxIsNil none rfp
        = Except.error "RegisterProgressable: pr is nil") ∧
    (∀ ctxIsNil src, RegisterProgressableContext ctxIsNil (some src) false
        = Except.error "RegisterProgressable: removeFunc is nil") ∧
    (∀ f ctxIsNil, RegisterContext f ctxIsNil none
        = (f, some "Register: progressable is nil")) ∧
    (∀ f ctxIsNil src, (RegisterContext f ctxIsNil (some src)).1.wg = f.wg + 1 ∧
        (RegisterContext f ctxIsNil (some src)).2 = none) := by
  refine ⟨fun _ _ => rfl, fun _ _ => rfl, fun _ _ => rfl, fun f ctxIsNil src => ?_⟩
  simp [RegisterContext, RegisterProgressableContext]

/-! ### C5 -/

/-- C5: per render frame, when the terminal reports `rows` with
`0 < rows` and fewer rows than the `N` tracked bars, exactly `rows` bars
are drawn, namely the last `rows` entries of the display order (the most
recently added); when `rows ≥ N` or the row count is unknown
(`rows ≤ 0`), all `N` bars are drawn. -/
theorem printUnix_height_elision (render : Bar → String)
    (cellCount : String → Int) (rows cols : Int) (sizeErr : Bool) (p : Pool) :
    ((0 < rows ∧ rows < (p.bars.length : Int)) →
      (printUnix render cellCount rows cols sizeErr p).drawn
        = p.bars.drop (p.bars.length - rows.toNat) ∧
      (((printUnix render cellCount rows cols sizeErr p).drawn.length : Int) = rows)) ∧
    ((rows ≤ 0 ∨ (p.bars.length : Int) ≤ rows) →
      (printUnix render cellCount rows cols sizeErr p).drawn = p.bars) := by
  constructor
  · rintro ⟨h1, h2⟩
    have hcond : 0 < rows ∧ rows < (p.bars.length : Int) := ⟨h1, h2⟩
    refine ⟨by simp [printUnix, hcond], ?_⟩
    simp only [printUnix, if_pos hcond, List.length_drop]
    omega
  · intro h
    have hcond : ¬(0 < rows ∧ rows < (p.bars.length : Int)) := by
      rcases h with h | h <;> intro hc <;> omega
    simp [printUnix, hcond]

/-- C5 witness: with three tracked bars, a 2-row terminal draws exactly
the last two bars, while a 5-row terminal draws all three. -/
theorem printUnix_height_elision_witness :
    (printUnix renderConst cellCountLen 2 5 false
        { bars := [New64 1, New64 2, New64 3], lastBarsCount := 0 }).drawn
      = [New64 2, New64 3] ∧
    (printUnix renderConst cellCountLen 5 5 false
        { bars := [New64 1, New64 2, New64 3], lastBarsCount := 0 }).drawn
      = [New64 1, New64 2, New64 3] := by
  constructor
  · have h := (printUnix_height_elision renderConst cellCountLen 2 5 false
      { bars := [New64 1, New64 2, New64 3], lastBarsCount := 0 }).1 (by decide)
    rw [h.1]
    decide
  · exact (printUnix_height_elision renderConst cellCountLen 5 5 false
      { bars := [New64 1, New64 2, New64 3], lastBarsCount := 0 }).2 (by decide)

/-! ### C4 -/

/-- C4 counterexample: a pool tracking an unfinished bar followed by a
finished bar, drawn on a 1-row terminal, makes the Unix print return the
all-finished condition even though a tracked (elided) bar is unfinished —
the elided bars are not consulted, contradicting the claim. -/
theorem printUnix_allfinished_elided_cex :
    (printUnix renderConst cellCountLen 1 5 false
        { bars := [New64 10, (New64 10).Finish], lastBarsCount := 0 }).isFinished = true ∧
    (({ bars := [New64 10, (New64 10).Finish], lastBarsCount := 0 } : Pool).bars.all
        (fun b => b.IsFinished)) = false := by
  decide

/-- C4 amended: after a complete render pass the Unix print reports the
all-finished condition exactly when every bar drawn this frame — the
display order with the height-elided leading entries dropped — is
finished; bars elided because the bar count exceeds the row count are not
consulted. (With no elision this coincides with every tracked bar being
finished.) -/
theorem printUnix_allfinished_drawn (render : Bar → String)
    (cellCount : String → Int) (rows cols : Int) (sizeErr : Bool) (p : Pool) :
    (printUnix render cellCount rows cols sizeErr p).isFinished = true
      ↔ ∀ b ∈ p.bars.drop
            (if 0 < rows ∧ rows < (p.bars.length : Int)
             then p.bars.length - rows.toNat else 0),
          b.IsFinished = true := by
  by_cases hcond : 0 < rows ∧ rows < (p.bars.length : Int)
  · simp [printUnix, hcond, List.all_eq_true, Bar.IsFinished]
  · simp [printUnix, hcond, List.all_eq_true, Bar.IsFinished]

/-! ### C3 -/

/-- C3 counterexample: on the same pool state (an unfinished bar then a
finished bar), the same 1-row, 5-column terminal geometry and the same
render and column-count functions, the Unix print and the Windows print
do not draw the same set of bars and do not return the same all-finished
result: the Unix print elides the unfinished bar and returns true, the
Windows print draws both bars and returns false. -/
theorem print_strategies_inequiv_cex :
    ¬ ((printUnix renderConst cellCountLen 1 5 false
          { bars := [New64 10, (New64 10).Finish], lastBarsCount := 0 }).drawn
        = (printWindows renderConst cellCountLen 5 false
            { bars := [New64 10, (New64 10).Finish], lastBarsCount := 0 }).drawn ∧
       (printUnix renderConst cellCountLen 1 5 false
          { bars := [New64 10, (New64 10).Finish], lastBarsCount := 0 }).isFinished
        = (printWindows renderConst cellCountLen 5 false
            { bars := [New64 10, (New64 10).Finish], lastBarsCount := 0 }).isFinished) := by
  decide

/-- C3 amended: the two strategies agree — same drawn bars, same
all-finished result, same stored frame line count, and identical padded
lines whenever rendering is insensitive to the width the Unix print
installs on each bar — exactly when no height elision is needed, that is
when the row count is unknown (`rows ≤ 0`) or the bar count does not
exceed it; when `0 < rows <` bar count they are not equivalent: the Unix
print draws only the last `rows` bars and accumulates the all-finished
result over those, while the Windows print draws and checks every
tracked bar. -/
theorem print_strategies_equiv_no_elision (render : Bar → String)
    (cellCount : String → Int) (rows cols : Int) (gErr : Bool) (p : Pool)
    (h : rows ≤ 0 ∨ (p.bars.length : Int) ≤ rows) :
    (printUnix render cellCount rows cols gErr p).drawn
      = (printWindows render cellCount cols gErr p).drawn ∧
    (printUnix render cellCount rows cols gErr p).isFinished
      = (printWindows render cellCount cols gErr p).isFinished ∧
    (printUnix render cellCount rows cols gErr p).lastBarsCount
      = (printWindows render cellCount cols gErr p).lastBarsCount ∧
    ((∀ b, render (b.SetWidth (if gErr then defaultBarWidth else cols)) = render b) →
      (printUnix render cellCount rows cols gErr p).lines
        = (printWindows render cellCount cols gErr p).lines) := by
  have hcond : ¬(0 < rows ∧ rows < (p.bars.length : Int)) := by
    rcases h with h | h <;> intro hc <;> omega
  refine ⟨by simp [printUnix, printWindows, hcond], by simp [printUnix, printWindows, hcond], by simp [printUnix, printWindows, hcond], ?_⟩
  intro hw
  simp [printUnix, printWindows, hcond, hw]

/-- C3 amended witness: with two bars on a 5-row terminal the two
strategies draw the same bars and return the same all-finished result. -/
theorem print_strategies_equiv_no_elision_witness :
    (printUnix renderConst cellCountLen 5 5 false
        { bars := [New64 10, (New64 10).Finish], lastBarsCount := 0 }).drawn
      = (printWindows renderConst cellCountLen 5 false
          { bars := [New64 10, (New64 10).Finish], lastBarsCount := 0 }).drawn ∧
    (printUnix renderConst cellCountLen 5 5 false
        { bars := [New64 10, (New64 10).Finish], lastBarsCount := 0 }).isFinished
      = (printWindows renderConst cellCountLen 5 false
          { bars := [New64 10, (New64 10).Finish], lastBarsCount := 0 }).isFinished := by
  have h := print_strategies_equiv_no_elision renderConst cellCountLen 5 5 false
    { bars := [New64 10, (New64 10).Finish], lastBarsCount := 0 } (by decide)
  exact ⟨h.1, h.2.1⟩

end PB
